import Mathlib

/-
Shallow embedding of the shipping-discount engine from src/app/shipping
(helpers.py, rules.py, schemaexec.py, transaction.py).

Conventions of the embedding:
* Python Decimal values are modelled as rationals: the code only adds,
  subtracts, compares, sums and takes min or max of Decimal values, and
  decimals form a subring of the rationals, so this is exact.
* Python exceptions are modelled with Except: a function that can raise
  returns Except Err. The Err constructor names follow the Python
  exception classes that the code can raise.
* Transaction is the data-model record of the repository (dataclasses.py,
  class Transaction): date, carrier, package_size and price. It is the
  record the discount-rule methods are written against: their bodies read
  the base price from transaction.price (rules.py:133, 204), and the
  rule-level claims are settled on those methods directly.
* The processor and the rule methods do not fit together in the source:
  TransactionProcessor._get_largest_discount calls each discount rule
  with four positional arguments (transaction.py:109-111), while both
  registered rule classes declare calculate_discount with three
  parameters (rules.py:116-121, 175-180), so in Python the dispatch
  itself raises TypeError before any rule body runs (and the
  TransactionModel the processor would pass has no price field either,
  pydantic_models.py:35-40). The embedding models that dispatch as the
  TypeError it raises: a call on a processor holding at least one
  discount rule always fails, and only rule-free processors ever append
  history records. The correction-rule loop sits behind the failing
  dispatch and is unreachable from the processor.
* Rule match filters (the kwargs captured as _transaction_type) can only
  name the transaction attributes carrier and package_size, because
  RULE_PARAM_TYPES in pydantic_types.py allows no other rule parameter
  alias; a filter is therefore a pair of optional expected values.
  attributes_equal and filter_objects raise TypeError when the filter is
  empty, which the embedding reproduces.
* Python sorted with a key function is the stable sort by that key; the
  output of a stable sort is uniquely determined by the comparator, so
  List.insertionSort with the corresponding relation is extensionally the
  same function.
-/

namespace Shipping

/-- Calendar date as carried by datetime values; the rules only ever read
the month and (for the year-blindness analysis) the year. -/
structure Date where
  year : Int
  month : Nat
  day : Nat
deriving DecidableEq

/-- Shipping plan record: dataclasses.py class ShippingPlan. -/
structure ShippingPlan where
  carrier : String
  package_size : String
  price : ℚ
deriving DecidableEq

/-- Transaction record with resolved base price: dataclasses.py class
Transaction. -/
structure Transaction where
  date : Date
  carrier : String
  package_size : String
  price : ℚ
deriving DecidableEq

/-- History record: dataclasses.py class DiscountTransaction. -/
structure DiscountRecord where
  date : Date
  carrier : String
  package_size : String
  price : ℚ
  discount : ℚ
deriving DecidableEq

/-- Exceptions the embedded code can raise, named after the Python
exception classes. -/
inductive Err where
  | typeError
  | indexError
  | lookupError
  | validationError
  | valueError
  | zeroDivisionError
deriving DecidableEq

/-- A rule match filter: the kwargs mapping stored as _transaction_type.
Only carrier and package_size can occur as keys (see the conventions
note above). -/
structure MatchFilter where
  carrier : Option String
  package_size : Option String
deriving DecidableEq

/-- True when the kwargs mapping has no entries; attributes_equal and
filter_objects raise TypeError in that case. -/
def MatchFilter.isEmpty (f : MatchFilter) : Bool :=
  f.carrier.isNone && f.package_size.isNone

/-- One kwargs entry: absent key constrains nothing, present key requires
attribute equality. -/
def optMatches (req : Option String) (v : String) : Bool :=
  match req with
  | none => true
  | some s => s == v

/-- helpers.attributes_equal applied to a transaction with the kwargs of a
match filter (the nonempty case). -/
def Transaction.matches (t : Transaction) (f : MatchFilter) : Bool :=
  optMatches f.carrier t.carrier && optMatches f.package_size t.package_size

/-- helpers.filter_objects predicate for one shipping plan against a match
filter. -/
def ShippingPlan.matches (p : ShippingPlan) (f : MatchFilter) : Bool :=
  optMatches f.carrier p.carrier && optMatches f.package_size p.package_size

/-- helpers.filter_objects predicate for one history record against a
match filter. -/
def DiscountRecord.matches (h : DiscountRecord) (f : MatchFilter) : Bool :=
  optMatches f.carrier h.carrier && optMatches f.package_size h.package_size

/-- helpers.find restricted to the one call site, which searches shipping
plans by carrier and package_size; returns the first match and raises
LookupError when none exists. -/
def find (plans : List ShippingPlan) (carrier package_size : String) :
    Except Err ShippingPlan :=
  match plans.find? (fun p => p.carrier == carrier && p.package_size == package_size) with
  | some p => .ok p
  | none => .error .lookupError

/-- The date lambda both rules pass to filter_objects: it compares only
the month numbers of the two dates. -/
def sameMonthAs (t : Transaction) (r : DiscountRecord) : Bool :=
  r.date.month == t.date.month

/-- filter_objects with the date lambda, as used by both
MonthlyAccumulatedDiscountLimiter.correct_discount and
EveryNShipmentIsFreeXTimesInAMonth.calculate_discount. -/
def filterSameMonth (t : Transaction) (l : List DiscountRecord) :
    List DiscountRecord :=
  l.filter (sameMonthAs t)

/-- Python extended slice l[::n] for positive step n: the elements at
indices 0, n, 2n, and so on. -/
def everyNth {α : Type} (l : List α) (n : Nat) : List α :=
  (l.enum.filter (fun p => p.1 % n == 0)).map (fun p => p.2)

namespace MatchLowestPackagePrice

/-- rules.MatchLowestPackagePrice.calculate_discount. The rule instance
is its captured match filter. Python sorted(key price) is embedded as the
stable insertion sort by price; element [0] of an empty sorted list
raises IndexError. -/
def calculate_discount (f : MatchFilter) (t : Transaction)
    (plans : List ShippingPlan) (hist : List DiscountRecord) : Except Err ℚ :=
  if f.isEmpty then .error .typeError
  else if t.matches f = false then .ok 0
  else
    match List.insertionSort (fun a b => a.price ≤ b.price)
        (plans.filter (fun p => p.matches f)) with
    | [] => .error .indexError
    | p :: _ => .ok (t.price - p.price)

end MatchLowestPackagePrice

namespace EveryNShipmentIsFreeXTimesInAMonth

/-- rules.EveryNShipmentIsFreeXTimesInAMonth.calculate_discount. The rule
instance is (n, x_times, match filter). The construction-time pydantic
validation guarantees n > 0 and x_times > 0; the n = 0 branch mirrors the
ZeroDivisionError Python would raise on the modulo. del nt[0] on an
empty list raises IndexError. -/
def calculate_discount (n x_times : Nat) (f : MatchFilter) (t : Transaction)
    (plans : List ShippingPlan) (hist : List DiscountRecord) : Except Err ℚ :=
  if f.isEmpty then .error .typeError
  else if t.matches f = false then .ok 0
  else
    let similar := hist.filter (fun h => h.matches f)
    let number_of_similar := similar.length + 1
    if n == 0 then .error .zeroDivisionError
    else if number_of_similar % n == 0 then
      match everyNth similar n with
      | [] => .error .indexError
      | _ :: nt_rest =>
        if (filterSameMonth t nt_rest).length < x_times then .ok t.price
        else .ok 0
    else .ok 0

end EveryNShipmentIsFreeXTimesInAMonth

namespace MonthlyAccumulatedDiscountLimiter

/-- rules.MonthlyAccumulatedDiscountLimiter.correct_discount. The rule
instance is its limit. The method raises nothing, so it returns a plain
rational. -/
def correct_discount (limit : ℚ) (t : Transaction) (discount : ℚ)
    (plans : List ShippingPlan) (hist : List DiscountRecord) : ℚ :=
  if discount = 0 then 0
  else
    let month_discounts := ((filterSameMonth t hist).map DiscountRecord.discount).sum
    let exceeds := month_discounts + discount - limit
    if 0 < exceeds then discount - exceeds else discount

end MonthlyAccumulatedDiscountLimiter

/-- The registered discount rule classes (RegisterDiscountRule collects
exactly MatchLowestPackagePrice and EveryNShipmentIsFreeXTimesInAMonth),
as the variants a constructed rule instance can have. -/
inductive DiscountRule where
  | matchLowestPackagePrice (f : MatchFilter)
  | everyNShipmentIsFreeXTimesInAMonth (n x_times : Nat) (f : MatchFilter)
deriving DecidableEq

/-- The registered correction rule classes (RegisterDiscountCorrectionRule
collects exactly MonthlyAccumulatedDiscountLimiter). -/
inductive CorrectionRule where
  | monthlyAccumulatedDiscountLimiter (limit : ℚ)
deriving DecidableEq

/-- transaction.TransactionProcessor state: fixed configuration plus the
mutable history list. -/
structure TransactionProcessor where
  shipping_plans : List ShippingPlan
  rules : List DiscountRule
  correction_rules : List CorrectionRule
  history : List DiscountRecord
deriving DecidableEq

/-- Raw per-call input of process_transaction after field coercion: date,
carrier and package_size. These are also the fields of the
TransactionModel the processor builds (pydantic_models.py:35-40); note it
has no price field. -/
structure RawTransaction where
  date : Date
  carrier : String
  package_size : String
deriving DecidableEq

/-- The rule dispatch the processor performs at transaction.py:109-111:
rule.calculate_discount called with the four positional arguments
transaction, price, shipping_plans, history. Both registered rule classes
declare calculate_discount with only the three parameters transaction,
shipping_plans, history (rules.py:116-121, 175-180), so in Python this
call raises TypeError at the call site, before any rule body executes.
The value of the function is the exception the dispatch raises. -/
def DiscountRule.processor_dispatch (r : DiscountRule)
    (tobj : RawTransaction) (price : ℚ) (plans : List ShippingPlan)
    (hist : List DiscountRecord) : Err :=
  .typeError

/-- transaction.TransactionProcessor._get_largest_discount as the program
executes it: with no discount rule registered the loop body never runs,
discounts stays empty and the method returns 0 (the len == 0 early
return); with at least one rule, the first iteration raises TypeError at
the dispatch and the exception propagates, so the correction loop and
max(discounts) are unreachable. -/
def TransactionProcessor.get_largest_discount (p : TransactionProcessor)
    (tobj : RawTransaction) (price : ℚ) (hist : List DiscountRecord) :
    Except Err ℚ :=
  match p.rules with
  | [] => .ok 0
  | r :: _ =>
      .error (r.processor_dispatch tobj price p.shipping_plans hist)

/-- Modelled from the spec: step 1 of process_transaction delegates field
validation to outside collaborators (pydantic TransactionModel and the
category validators), whose implementation is not in the repository;
per section 7 of the spec a validation failure is fatal for the call.
The model rejects a transaction with an empty required string field and
returns the record unchanged otherwise. -/
def validateTransaction (raw : RawTransaction) : Except Err RawTransaction :=
  if raw.carrier == "" || raw.package_size == "" then .error .validationError
  else .ok raw

/-- The ShippingPrice TypedDict returned by process_transaction. -/
structure ShippingPrice where
  reduced_price : ℚ
  applied_discount : Option ℚ
deriving DecidableEq

/-- transaction.TransactionProcessor.process_transaction. The pair holds
the processor state after the call and the outcome; an exception raised
before the history append leaves the state component untouched, exactly
as the Python method leaves self unchanged when it raises. -/
def TransactionProcessor.process_transaction (p : TransactionProcessor)
    (raw : RawTransaction) : TransactionProcessor × Except Err ShippingPrice :=
  match validateTransaction raw with
  | .error e => (p, .error e)
  | .ok tobj =>
    match find p.shipping_plans tobj.carrier tobj.package_size with
    | .error e => (p, .error e)
    | .ok plan =>
      let price_before_discount := plan.price
      match p.get_largest_discount tobj price_before_discount p.history with
      | .error e => (p, .error e)
      | .ok discount =>
        let record : DiscountRecord :=
          { date := tobj.date, carrier := tobj.carrier,
            package_size := tobj.package_size,
            price := price_before_discount, discount := discount }
        ({ p with history := p.history ++ [record] },
         if 0 < discount then
           .ok { reduced_price := price_before_discount - discount,
                 applied_discount := some discount }
         else
           .ok { reduced_price := price_before_discount,
                 applied_discount := none })

/-- Rule schema entry: schemaexec.RuleSchemaDict, generic over the raw
params representation as the Python function is generic over the rule
type. -/
structure RuleSchema (P : Type) where
  name : String
  params : P

/-- dict update with one key: replaces the value when the key exists,
otherwise appends the pair. -/
def updateEntry {R : Type} (acc : List (String × R)) (name : String)
    (obj : R) : List (String × R) :=
  if acc.any (fun kv => kv.1 == name) then
    acc.map (fun kv => if kv.1 == name then (name, obj) else kv)
  else acc ++ [(name, obj)]

/-- The map_cls dict comprehension keyed by class name: with duplicate
names the later class wins, hence the reversed search. -/
def lookupCls {Q R : Type} (rule_cls : List (String × (Q → Except Err R)))
    (name : String) : Option (Q → Except Err R) :=
  match rule_cls.reverse.find? (fun kv => kv.1 == name) with
  | some kv => some kv.2
  | none => none

/-- The schema loop of schemaexec.init_discount_rules_from_schema: cast
the params, validate them, resolve the class by name (ValueError when the
name is not registered), construct the instance, and update the result
dict. Any exception aborts the loop and the whole call. -/
def initRulesLoop {P Q R : Type} (rule_cls : List (String × (Q → Except Err R)))
    (caster : P → Except Err Q) (validator : Q → Except Err Unit) :
    List (RuleSchema P) → List (String × R) → Except Err (List (String × R))
  | [], objects => .ok objects
  | s :: rest, objects =>
    match caster s.params with
    | .error e => .error e
    | .ok casted =>
      match validator casted with
      | .error e => .error e
      | .ok _ =>
        match lookupCls rule_cls s.name with
        | none => .error .valueError
        | some ctor =>
          match ctor casted with
          | .error e => .error e
          | .ok obj =>
            initRulesLoop rule_cls caster validator rest
              (updateEntry objects s.name obj)

/-- schemaexec.init_discount_rules_from_schema. A rule class is a name
paired with a constructor that can reject its arguments
(RuleConstructionError); the caster and validator are the injected
collaborators. validate_rule_dict_schema only checks the mapping shape,
which the typed RuleSchema representation guarantees. -/
def init_discount_rules_from_schema {P Q R : Type}
    (rule_cls : List (String × (Q → Except Err R)))
    (rule_schemas : List (RuleSchema P))
    (caster : P → Except Err Q) (validator : Q → Except Err Unit) :
    Except Err (List (String × R)) :=
  initRulesLoop rule_cls caster validator rule_schemas []

/-- Claim-side reading of the monthly aggregate: the sum of the discounts
of the history records whose date passes the month filter. This is the
month_discounts expression of correct_discount, named so that the
theorems can speak about it. -/
def monthSum (t : Transaction) (hist : List DiscountRecord) : ℚ :=
  ((filterSameMonth t hist).map DiscountRecord.discount).sum

/-- Claim-side minimum of a price list, mirroring the words lowest price
among the matching shipping plans; none on an empty list. -/
def minPrices : List ℚ → Option ℚ
  | [] => none
  | a :: as => some (as.foldl min a)

/-- Base price a call would resolve for a raw transaction, defaulting to 0
when the plan lookup fails; meaningful only for successful calls. -/
def basePriceOf (p : TransactionProcessor) (raw : RawTransaction) : ℚ :=
  match find p.shipping_plans raw.carrier raw.package_size with
  | .ok plan => plan.price
  | .error _ => 0

/-- Final discount a call would compute for a raw transaction, defaulting
to 0 when the dispatch raises; meaningful only for successful calls. -/
def finalDiscountOf (p : TransactionProcessor) (raw : RawTransaction) : ℚ :=
  match p.get_largest_discount raw (basePriceOf p raw) p.history with
  | .ok d => d
  | .error _ => 0

/-- Claim-side qualification condition of claim C2 for
EveryNShipmentIsFreeXTimesInAMonth: the transaction matches, its ordinal
position among matching transactions is a multiple of n, and the derived
subsequence (every n-th prior matching entry, with the entry at index 0
of that subsequence removed) has fewer same-month entries than x_times. -/
def c2Cond (n x_times : Nat) (f : MatchFilter) (t : Transaction)
    (hist : List DiscountRecord) : Bool :=
  t.matches f &&
  ((hist.filter (fun h => h.matches f)).length + 1) % n == 0 &&
  decide ((filterSameMonth t
    ((everyNth (hist.filter (fun h => h.matches f)) n).eraseIdx 0)).length < x_times)

/-- The value claim C2 predicts for calculate_discount: the full base
price when the qualification condition holds, otherwise 0. -/
def c2Predicted (n x_times : Nat) (f : MatchFilter) (t : Transaction)
    (hist : List DiscountRecord) : ℚ :=
  if c2Cond n x_times f t hist then t.price else 0

/- Concrete data used by the witnesses and counterexamples. -/

/-- Example filter requiring carrier A, as in the spec example. -/
def fA : MatchFilter := ⟨some ("A"), none⟩

/-- Example transaction of May 2024 with carrier A, small package, base
price 10. -/
def tA : Transaction := ⟨⟨2024, 5, 10⟩, "A", "small", 10⟩

/-- The shipping plan list of the spec example for
MatchLowestPackagePrice. -/
def plansEx : List ShippingPlan :=
  [⟨"A", "small", 10⟩, ⟨"A", "small", 8⟩, ⟨"B", "small", 5⟩]

/-- One prior May 2024 record with discount 15, for the limiter example. -/
def histMay15 : List DiscountRecord := [⟨⟨2024, 5, 3⟩, "A", "small", 10, 15⟩]

/-- A May record of the year 2023, used against a May 2024 transaction. -/
def recMay2023 : DiscountRecord := ⟨⟨2023, 5, 2⟩, "A", "small", 10, 7⟩

/-- A processor with one shipping plan and no rules, for the lookup
failure witness. -/
def pLookup : TransactionProcessor := ⟨[⟨"A", "small", 10⟩], [], [], []⟩

/-- A raw transaction whose carrier has no shipping plan in pLookup. -/
def rawB : RawTransaction := ⟨⟨2024, 5, 1⟩, "B", "small"⟩

/-- A one-element rule class list for the schema witness. -/
def clsA : List (String × (Unit → Except Err Nat)) :=
  [("MatchLowestPackagePrice", fun _ => .ok 0)]

/-- A schema naming a rule absent from clsA. -/
def schemaBad : List (RuleSchema Unit) := [⟨"NoSuchRule", ()⟩]

/-- An April 2024 matching record, a month before tA. -/
def recApr : DiscountRecord := ⟨⟨2024, 4, 2⟩, "A", "small", 10, 0⟩

/-- A raw May 2024 transaction with carrier A and a small package. -/
def rawA : RawTransaction := ⟨⟨2024, 5, 10⟩, "A", "small"⟩

/-- A processor with the example plans, the lowest-price rule and no
correction rules, for the success witnesses. -/
def pOne : TransactionProcessor :=
  ⟨plansEx, [.matchLowestPackagePrice fA], [], []⟩

/-- One prior May 2024 record with discount 5, for the negative-discount
witness. -/
def histMay5 : List DiscountRecord := [⟨⟨2024, 5, 3⟩, "A", "small", 10, 5⟩]

/-- A processor whose limiter of 1 is already exceeded by the May history,
so any positive raw discount corrects to a negative value. -/
def pNeg : TransactionProcessor :=
  ⟨plansEx, [.matchLowestPackagePrice fA],
    [.monthlyAccumulatedDiscountLimiter 1], histMay5⟩

/-- C4: MonthlyAccumulatedDiscountLimiter.correct_discount returns 0 on an
incoming discount of 0; otherwise it returns the discount unchanged when
the same-month history sum plus the discount does not exceed the limit,
and exactly limit minus the month sum otherwise, with no clamping to 0;
in particular with limit 20, prior same-month sum 15 and incoming
discount 10 the corrected discount is 5. -/
theorem monthlyLimiter_caps_at_limit :
    (∀ (limit : ℚ) (t : Transaction) (plans : List ShippingPlan)
        (hist : List DiscountRecord) (d : ℚ),
      MonthlyAccumulatedDiscountLimiter.correct_discount limit t d plans hist =
        if d = 0 then 0
        else if monthSum t hist + d ≤ limit then d
        else limit - monthSum t hist) ∧
    MonthlyAccumulatedDiscountLimiter.correct_discount 20 tA 10 [] histMay15 = 5 := by
  constructor
  · intro limit t plans hist d
    simp only [MonthlyAccumulatedDiscountLimiter.correct_discount, monthSum]
    split_ifs <;> first | rfl | linarith
  · norm_num [MonthlyAccumulatedDiscountLimiter.correct_discount, filterSameMonth,
      sameMonthAs, histMay15, tA]

/-- C8: the month filter shared by the monthly limiter and the every-n
rule compares only the month numbers, so a history entry whose date lies
in the same-numbered month of a different year is still kept by the
filter and thus included in the monthly aggregates built from it. -/
theorem monthFilter_ignores_year (t : Transaction) (hist : List DiscountRecord)
    (e : DiscountRecord) (hmem : e ∈ hist) (hmonth : e.date.month = t.date.month)
    (hyear : e.date.year ≠ t.date.year) :
    e ∈ filterSameMonth t hist := by
  simp [filterSameMonth, List.mem_filter, sameMonthAs, hmem, hmonth]

/-- Witness for C8: a May 2023 record is kept by the month filter of a May
2024 transaction. -/
theorem monthFilter_ignores_year_witness :
    recMay2023 ∈ [recMay2023] ∧ recMay2023.date.month = tA.date.month ∧
    recMay2023.date.year ≠ tA.date.year ∧
    recMay2023 ∈ filterSameMonth tA [recMay2023] :=
  ⟨by decide, by decide, by decide,
    monthFilter_ignores_year tA [recMay2023] recMay2023 (by decide) (by decide)
      (by decide)⟩

/-- C9: for EveryNShipmentIsFreeXTimesInAMonth with n = 1, a matching
transaction with no matching prior history reaches del on index 0 of an
empty derived subsequence, so calculate_discount raises IndexError
instead of returning a discount. -/
theorem everyN_n1_first_match_index_error (x : Nat) (f : MatchFilter)
    (t : Transaction) (plans : List ShippingPlan) (hist : List DiscountRecord)
    (hne : f.isEmpty = false) (hm : t.matches f = true)
    (hnomatch : hist.filter (fun h => h.matches f) = []) :
    EveryNShipmentIsFreeXTimesInAMonth.calculate_discount 1 x f t plans hist =
      .error .indexError := by
  simp [EveryNShipmentIsFreeXTimesInAMonth.calculate_discount, hne, hm, hnomatch,
    everyNth]

/-- Witness for C9: the concrete first matching transaction with empty
history fails with IndexError. -/
theorem everyN_n1_first_match_index_error_witness :
    fA.isEmpty = false ∧ tA.matches fA = true ∧
    (([] : List DiscountRecord).filter (fun h => h.matches fA) = []) ∧
    EveryNShipmentIsFreeXTimesInAMonth.calculate_discount 1 1 fA tA [] [] =
      .error .indexError :=
  ⟨by decide, by decide, rfl,
    everyN_n1_first_match_index_error 1 fA tA [] [] (by decide) (by decide) rfl⟩

/-- C5: a process_transaction call that fails with a validation error or
with the LookupError of the shipping plan lookup raises before the
history append, so the processor history is exactly unchanged. -/
theorem process_failure_leaves_history_unchanged (p : TransactionProcessor)
    (raw : RawTransaction) (e : Err)
    (he : (p.process_transaction raw).2 = .error e)
    (hkind : e = .validationError ∨ e = .lookupError) :
    (p.process_transaction raw).1.history = p.history := by
  unfold TransactionProcessor.process_transaction at he ⊢
  cases hv : validateTransaction raw with
  | error e1 => simp [hv]
  | ok tobj =>
    cases hf : find p.shipping_plans tobj.carrier tobj.package_size with
    | error e1 => simp [hv, hf]
    | ok plan =>
      cases hd : p.get_largest_discount tobj plan.price p.history with
      | error e1 => simp [hv, hf, hd]
      | ok d =>
        simp only [hv, hf, hd] at he
        split at he <;> simp_all

/-- Witness for C5: a lookup failure on a concrete processor leaves its
history unchanged. -/
theorem process_failure_leaves_history_unchanged_witness :
    (pLookup.process_transaction rawB).2 = .error .lookupError ∧
    (Err.lookupError = Err.validationError ∨ Err.lookupError = Err.lookupError) ∧
    (pLookup.process_transaction rawB).1.history = pLookup.history :=
  ⟨rfl, Or.inr rfl,
    process_failure_leaves_history_unchanged pLookup rawB .lookupError rfl
      (Or.inr rfl)⟩

/-- Exception propagation of the schema loop: when some schema entry
names a class missing from the registry, the loop ends in an exception
whatever else happens first. -/
theorem initRulesLoop_error {P Q R : Type}
    (rule_cls : List (String × (Q → Except Err R)))
    (caster : P → Except Err Q) (validator : Q → Except Err Unit)
    (schemas : List (RuleSchema P)) (objects : List (String × R))
    (hbad : ∃ s ∈ schemas, lookupCls rule_cls s.name = none) :
    ∃ e, initRulesLoop rule_cls caster validator schemas objects = .error e := by
  revert hbad
  induction schemas generalizing objects with
  | nil => intro hbad; simp at hbad
  | cons s rest ih =>
    intro hbad
    unfold initRulesLoop
    cases hc : caster s.params with
    | error e => exact ⟨e, by simp [hc]⟩
    | ok casted =>
      cases hval : validator casted with
      | error e => exact ⟨e, by simp [hc, hval]⟩
      | ok u =>
        cases hlk : lookupCls rule_cls s.name with
        | none => exact ⟨.valueError, by simp [hc, hval, hlk]⟩
        | some ctor =>
          cases hctor : ctor casted with
          | error e => exact ⟨e, by simp [hc, hval, hlk, hctor]⟩
          | ok obj =>
            have hbad2 : ∃ s2 ∈ rest, lookupCls rule_cls s2.name = none := by
              obtain ⟨s0, hs0, hl0⟩ := hbad
              rcases List.mem_cons.mp hs0 with heq | hmem
              · subst heq; simp [hl0] at hlk
              · exact ⟨s0, hmem, hl0⟩
            obtain ⟨e, he⟩ := ih (updateEntry objects s.name obj) hbad2
            exact ⟨e, by simp [hc, hval, hlk, hctor, he]⟩

/-- C7: init_discount_rules_from_schema with a schema entry whose name is
not among the rule class names fails with an exception, so no rule
mapping is returned to the caller. -/
theorem unknown_rule_name_fails {P Q R : Type}
    (rule_cls : List (String × (Q → Except Err R)))
    (rule_schemas : List (RuleSchema P))
    (caster : P → Except Err Q) (validator : Q → Except Err Unit)
    (hbad : ∃ s ∈ rule_schemas, lookupCls rule_cls s.name = none) :
    ∃ e, init_discount_rules_from_schema rule_cls rule_schemas caster validator =
      .error e :=
  initRulesLoop_error rule_cls caster validator rule_schemas [] hbad

/-- Witness for C7: a concrete schema naming an unregistered rule makes
the call fail. -/
theorem unknown_rule_name_fails_witness :
    (∃ s ∈ schemaBad, lookupCls clsA s.name = none) ∧
    ∃ e, init_discount_rules_from_schema clsA schemaBad
      (fun _ => .ok ()) (fun _ => .ok ()) = .error e :=
  ⟨⟨⟨"NoSuchRule", ()⟩, by simp [schemaBad], rfl⟩,
    unknown_rule_name_fails clsA schemaBad (fun _ => .ok ()) (fun _ => .ok ())
      ⟨⟨"NoSuchRule", ()⟩, by simp [schemaBad], rfl⟩⟩

/-- Folding min over a list bounds the start value and every element. -/
theorem foldl_min_le_all (as : List ℚ) (a : ℚ) :
    as.foldl min a ≤ a ∧ ∀ x ∈ as, as.foldl min a ≤ x := by
  induction as generalizing a with
  | nil => simp
  | cons b bs ih =>
    simp only [List.foldl_cons]
    obtain ⟨h1, h2⟩ := ih (min a b)
    refine ⟨le_trans h1 (min_le_left a b), ?_⟩
    intro x hx
    rcases List.mem_cons.mp hx with rfl | hx2
    · exact le_trans h1 (min_le_right a x)
    · exact h2 x hx2

/-- Folding min over a list lands on the start value or an element. -/
theorem foldl_min_mem (as : List ℚ) (a : ℚ) : as.foldl min a ∈ a :: as := by
  induction as generalizing a with
  | nil => simp
  | cons b bs ih =>
    simp only [List.foldl_cons]
    have h := ih (min a b)
    rcases List.mem_cons.mp h with heq | hmem
    · rcases min_choice a b with hc | hc
      · rw [heq, hc]; exact List.mem_cons_self _ _
      · rw [heq, hc]; exact List.mem_cons_of_mem _ (List.mem_cons_self _ _)
    · exact List.mem_cons_of_mem _ (List.mem_cons_of_mem _ hmem)

/-- The claim-side minimum is an element of the list and a lower bound of
the list. -/
theorem minPrices_spec (l : List ℚ) (m : ℚ) (h : minPrices l = some m) :
    m ∈ l ∧ ∀ x ∈ l, m ≤ x := by
  cases l with
  | nil => simp [minPrices] at h
  | cons a as =>
    simp only [minPrices, Option.some.injEq] at h
    subst h
    obtain ⟨h1, h2⟩ := foldl_min_le_all as a
    refine ⟨foldl_min_mem as a, ?_⟩
    intro x hx
    rcases List.mem_cons.mp hx with rfl | hx2
    · exact h1
    · exact h2 x hx2

/-- The head of the stable sort by price is a member of the input with a
price below every input price. -/
theorem insertionSort_head_le (l : List ShippingPlan) (p : ShippingPlan)
    (rest : List ShippingPlan)
    (h : List.insertionSort (fun a b => a.price ≤ b.price) l = p :: rest) :
    p ∈ l ∧ ∀ q ∈ l, p.price ≤ q.price := by
  haveI : IsTotal ShippingPlan (fun a b => a.price ≤ b.price) :=
    ⟨fun a b => le_total a.price b.price⟩
  haveI : IsTrans ShippingPlan (fun a b => a.price ≤ b.price) :=
    ⟨fun a b c hab hbc => le_trans hab hbc⟩
  have hs := List.sorted_insertionSort (fun a b => a.price ≤ b.price) l
  have hp := List.perm_insertionSort (fun a b => a.price ≤ b.price) l
  rw [h] at hs hp
  refine ⟨hp.subset (List.mem_cons_self p rest), ?_⟩
  intro q hq
  have hq2 : q ∈ p :: rest := hp.symm.subset hq
  rcases List.mem_cons.mp hq2 with rfl | hq3
  · exact le_refl _
  · exact (List.sorted_cons.mp hs).1 q hq3

/-- C3: MatchLowestPackagePrice.calculate_discount returns 0 on a
transaction that does not match the filter, and on a matching
transaction returns the base price minus the lowest price among the
shipping plans matching the same filter. -/
theorem matchLowest_discount_correct :
    (∀ (f : MatchFilter) (t : Transaction) (plans : List ShippingPlan)
        (hist : List DiscountRecord), f.isEmpty = false → t.matches f = false →
      MatchLowestPackagePrice.calculate_discount f t plans hist = .ok 0) ∧
    (∀ (f : MatchFilter) (t : Transaction) (plans : List ShippingPlan)
        (hist : List DiscountRecord) (m : ℚ),
      f.isEmpty = false → t.matches f = true →
      minPrices ((plans.filter (fun p => p.matches f)).map ShippingPlan.price) =
        some m →
      MatchLowestPackagePrice.calculate_discount f t plans hist =
        .ok (t.price - m)) := by
  constructor
  · intro f t plans hist hne hm
    simp [MatchLowestPackagePrice.calculate_discount, hne, hm]
  · intro f t plans hist m hne hm hmin
    obtain ⟨hmem, hmle⟩ := minPrices_spec _ m hmin
    have hlne : plans.filter (fun p => p.matches f) ≠ [] := by
      intro h0
      rw [h0] at hmin
      simp [minPrices] at hmin
    cases hsort : List.insertionSort (fun a b => a.price ≤ b.price)
        (plans.filter (fun p => p.matches f)) with
    | nil =>
      have hp := List.perm_insertionSort (fun a b => a.price ≤ b.price)
        (plans.filter (fun p => p.matches f))
      rw [hsort] at hp
      exact absurd (List.length_eq_zero.mp (by simpa using hp.length_eq.symm)) hlne
    | cons p rest =>
      obtain ⟨hpmem, hple⟩ := insertionSort_head_le _ p rest hsort
      obtain ⟨q, hq, hqp⟩ := List.mem_map.mp hmem
      have h1 : p.price ≤ m := hqp ▸ hple q hq
      have h2 : m ≤ p.price :=
        hmle p.price (List.mem_map_of_mem ShippingPlan.price hpmem)
      have hpm : p.price = m := le_antisymm h1 h2
      simp [MatchLowestPackagePrice.calculate_discount, hne, hm, hsort, hpm]

/-- Witness for C3: the spec example with plans (A,small,10), (A,small,8),
(B,small,5), filter carrier A and base price 10 gives discount 2. -/
theorem matchLowest_discount_correct_witness :
    fA.isEmpty = false ∧ tA.matches fA = true ∧
    minPrices ((plansEx.filter (fun p => p.matches fA)).map ShippingPlan.price) =
      some 8 ∧
    MatchLowestPackagePrice.calculate_discount fA tA plansEx [] = .ok 2 := by
  have hmin : minPrices
      ((plansEx.filter (fun p => p.matches fA)).map ShippingPlan.price) =
      some 8 := by
    decide
  refine ⟨by decide, by decide, hmin, ?_⟩
  have h := matchLowest_discount_correct.2 fA tA plansEx [] 8 (by decide)
    (by decide) hmin
  rw [h]
  norm_num [tA]

/-- Taking every n-th element yields the empty list exactly on the empty
list, because index 0 always survives the stride filter. -/
theorem everyNth_nil_iff {α : Type} (l : List α) (n : Nat) :
    everyNth l n = [] ↔ l = [] := by
  constructor
  · intro h
    cases l with
    | nil => rfl
    | cons a as => simp [everyNth, List.enum_cons, Nat.zero_mod] at h
  · intro h
    subst h
    simp [everyNth]

/-- Counterexample for C2: with n = 1, x_times = 1, a matching transaction
and empty history, the qualification condition of the claim holds, yet
calculate_discount raises IndexError rather than returning the predicted
full base price. -/
theorem everyN_claimed_value_fails :
    c2Cond 1 1 fA tA [] = true ∧
    EveryNShipmentIsFreeXTimesInAMonth.calculate_discount 1 1 fA tA [] [] =
      .error .indexError ∧
    EveryNShipmentIsFreeXTimesInAMonth.calculate_discount 1 1 fA tA [] [] ≠
      .ok (c2Predicted 1 1 fA tA []) :=
  ⟨by decide, rfl, fun h => Except.noConfusion h⟩

/-- C2 amended: for n > 0 and a nonempty filter, calculate_discount
returns the predicted value of the claim except when the transaction
matches, its ordinal position is a multiple of n, and no prior history
entry matches the filter (possible only for n = 1), in which case the
call raises IndexError instead. -/
theorem everyN_discount_amended (n x : Nat) (f : MatchFilter) (t : Transaction)
    (plans : List ShippingPlan) (hist : List DiscountRecord)
    (hn : 0 < n) (hne : f.isEmpty = false) :
    EveryNShipmentIsFreeXTimesInAMonth.calculate_discount n x f t plans hist =
      if t.matches f = false then .ok 0
      else if ((hist.filter (fun h => h.matches f)).length + 1) % n ≠ 0 then .ok 0
      else if hist.filter (fun h => h.matches f) = [] then .error .indexError
      else .ok (if (filterSameMonth t
          ((everyNth (hist.filter (fun h => h.matches f)) n).eraseIdx 0)).length < x
        then t.price else 0) := by
  have hn0 : (n == 0) = false := by simpa using hn.ne'
  unfold EveryNShipmentIsFreeXTimesInAMonth.calculate_discount
  cases hm : t.matches f with
  | false => simp [hne, hm]
  | true =>
    cases hmod : (((hist.filter (fun h => h.matches f)).length + 1) % n == 0) with
    | false =>
      have hmodp : ((hist.filter (fun h => h.matches f)).length + 1) % n ≠ 0 := by
        simpa using hmod
      simp [hne, hm, hn0, hmod, hmodp]
    | true =>
      have hmodp : ((hist.filter (fun h => h.matches f)).length + 1) % n = 0 := by
        simpa using hmod
      cases hsim : hist.filter (fun h => h.matches f) with
      | nil => simp [hne, hm, hn0, hsim, everyNth, hmodp]
      | cons r rs =>
        have hnn : everyNth (r :: rs) n ≠ [] := by
          intro h0
          exact absurd ((everyNth_nil_iff (r :: rs) n).mp h0) (by simp)
        cases hev : everyNth (r :: rs) n with
        | nil => exact absurd hev hnn
        | cons hd tl =>
          rw [hsim] at hmodp
          simp only [List.length_cons] at hmodp
          simp [hne, hm, hn0, hsim, hev, hmodp]
          split_ifs <;> rfl

/-- Witness for C2 amended: with n = 2 and one prior matching April
record, the second matching transaction in May gets free shipping worth
its base price 10. -/
theorem everyN_discount_amended_witness :
    (0 : Nat) < 2 ∧ fA.isEmpty = false ∧
    EveryNShipmentIsFreeXTimesInAMonth.calculate_discount 2 1 fA tA [] [recApr] =
      .ok 10 := by
  refine ⟨by decide, by decide, ?_⟩
  have h := everyN_discount_amended 2 1 fA tA [] [recApr] (by decide) (by decide)
  rw [h]
  rfl

/-- C1: the claim describes spec steps 3 to 6, but the program cannot
reach them. transaction.py:109-111 passes four positional arguments to
rule methods declared with three parameters (rules.py:116-121, 175-180),
so every process_transaction call on a processor holding a discount rule
raises TypeError at the dispatch, before any discount is computed or any
record appended; protocols.py:29-50 declares the four-parameter signature
the rule classes claim to implement, so the spec is the intent and the
rule signatures the slip. Evaluated here at a concrete failing input: a
processor with the MatchLowestPackagePrice rule and a valid, plan-backed
transaction. -/
theorem rule_dispatch_type_error :
    pOne.rules = [DiscountRule.matchLowestPackagePrice fA] ∧
    (pOne.process_transaction rawA).2 = .error .typeError ∧
    (pOne.process_transaction rawA).1.history = pOne.history :=
  ⟨rfl, rfl, rfl⟩

/-- C6: the history only ever grows at the end, and a successful call
appends exactly one record carrying the transaction fields, the resolved
base price and the final discount, final discount 0 included. In the
program, successful calls are exactly those on processors without
discount rules, and they always append a discount-0 record. -/
theorem process_success_appends_one_record (p : TransactionProcessor)
    (raw : RawTransaction) :
    (∃ tl, (p.process_transaction raw).1.history = p.history ++ tl) ∧
    (∀ res, (p.process_transaction raw).2 = .ok res →
      (p.process_transaction raw).1.history =
        p.history ++ [{ date := raw.date, carrier := raw.carrier,
                        package_size := raw.package_size,
                        price := basePriceOf p raw,
                        discount := finalDiscountOf p raw }]) := by
  unfold TransactionProcessor.process_transaction
  cases hv : validateTransaction raw with
  | error e => exact ⟨⟨[], by simp [hv]⟩, fun res hres => by simp [hv] at hres⟩
  | ok tobj =>
    have htobj : tobj = raw := by
      unfold validateTransaction at hv
      split at hv
      · simp at hv
      · simpa using hv.symm
    rw [htobj] at hv
    simp only [htobj]
    cases hf : find p.shipping_plans raw.carrier raw.package_size with
    | error e =>
      exact ⟨⟨[], by simp [hv, hf]⟩, fun res hres => by simp [hv, hf] at hres⟩
    | ok plan =>
      cases hd : p.get_largest_discount raw plan.price p.history with
      | error e =>
        refine ⟨⟨[], by simp [hv, hf, hd]⟩, fun res hres => ?_⟩
        simp [hv, hf, hd] at hres
      | ok d =>
        have hbp : basePriceOf p raw = plan.price := by
          unfold basePriceOf
          rw [hf]
        have hfd : finalDiscountOf p raw = d := by
          unfold finalDiscountOf
          rw [hbp, hd]
        refine ⟨⟨[{ date := raw.date, carrier := raw.carrier,
                    package_size := raw.package_size, price := plan.price,
                    discount := d }],
          by simp [hv, hf, hd]⟩, fun res hres => ?_⟩
        simp [hv, hf, hd, hbp, hfd]

/-- Witness for C6: a concrete successful call (a rule-free processor, as
any rule-bearing one fails at the dispatch) appends exactly the one
expected record, with discount 0. -/
theorem process_success_appends_one_record_witness :
    (pLookup.process_transaction rawA).2 = .ok ⟨10, none⟩ ∧
    (pLookup.process_transaction rawA).1.history =
      pLookup.history ++ [⟨⟨2024, 5, 10⟩, "A", "small", 10, 0⟩] := by
  have hok : (pLookup.process_transaction rawA).2 = .ok ⟨10, none⟩ := rfl
  have h := (process_success_appends_one_record pLookup rawA).2 ⟨10, none⟩ hok
  refine ⟨hok, ?_⟩
  rw [h]
  rfl

/-- Counterexample for C10: the program never appends a history record
with a negative discount. A successful call forces an empty discount rule
list (otherwise the dispatch raises TypeError), so the recorded final
discount is always exactly 0; this proves the negation of the recordable
negative discount the claim asserts. -/
theorem no_negative_discount_recorded :
    ¬ ∃ (p : TransactionProcessor) (raw : RawTransaction)
        (res : ShippingPrice) (rec : DiscountRecord),
      (p.process_transaction raw).2 = .ok res ∧
      (p.process_transaction raw).1.history = p.history ++ [rec] ∧
      rec.discount < 0 := by
  rintro ⟨p, raw, res, rec, hok, happ, hneg⟩
  unfold TransactionProcessor.process_transaction at hok happ
  cases hv : validateTransaction raw with
  | error e => simp [hv] at hok
  | ok tobj =>
    simp only [hv] at hok happ
    cases hf : find p.shipping_plans tobj.carrier tobj.package_size with
    | error e => simp [hf] at hok
    | ok plan =>
      cases hd : p.get_largest_discount tobj plan.price p.history with
      | error e => simp [hf, hd] at hok
      | ok d =>
        have hd0 : d = 0 := by
          have hd2 := hd
          unfold TransactionProcessor.get_largest_discount at hd2
          cases hrules : p.rules with
          | nil =>
            simp only [hrules] at hd2
            exact (Except.ok.inj hd2).symm
          | cons r rs =>
            simp only [hrules] at hd2
            simp at hd2
        subst hd0
        simp only [hf, hd] at happ
        have h9 : [({ date := tobj.date, carrier := tobj.carrier,
                      package_size := tobj.package_size, price := plan.price,
                      discount := 0 } : DiscountRecord)] = [rec] :=
          List.append_cancel_left happ
        have h10 : rec = { date := tobj.date, carrier := tobj.carrier,
                           package_size := tobj.package_size,
                           price := plan.price, discount := 0 } := by
          simpa using h9.symm
        rw [h10] at hneg
        simp at hneg

/-- C10 amended: the antecedent of the claim is unreachable. On a
processor holding at least one discount rule, every process_transaction
call fails, with TypeError raised at the rule dispatch when validation
and plan lookup pass, and appends nothing, so no rule ever returns a raw
discount inside process_transaction and no negative discount is ever
recorded. -/
theorem rule_bearing_calls_never_append (p : TransactionProcessor)
    (raw : RawTransaction) (hne : p.rules ≠ []) :
    (∃ e, (p.process_transaction raw).2 = .error e) ∧
    (p.process_transaction raw).1.history = p.history := by
  obtain ⟨r, rs, hrules⟩ := List.exists_cons_of_ne_nil hne
  unfold TransactionProcessor.process_transaction
  cases hv : validateTransaction raw with
  | error e => exact ⟨⟨e, by simp [hv]⟩, by simp [hv]⟩
  | ok tobj =>
    cases hf : find p.shipping_plans tobj.carrier tobj.package_size with
    | error e => exact ⟨⟨e, by simp [hv, hf]⟩, by simp [hv, hf]⟩
    | ok plan =>
      have hg : p.get_largest_discount tobj plan.price p.history =
          .error .typeError := by
        unfold TransactionProcessor.get_largest_discount
        rw [hrules]
        rfl
      exact ⟨⟨.typeError, by simp [hv, hf, hg]⟩, by simp [hv, hf, hg]⟩

/-- Witness for C10 amended: the processor that was meant to correct a
raw discount of 2 down to -4 in fact fails with TypeError at the rule
dispatch and appends nothing. -/
theorem rule_bearing_calls_never_append_witness :
    pNeg.rules ≠ [] ∧
    (∃ e, (pNeg.process_transaction rawA).2 = .error e) ∧
    (pNeg.process_transaction rawA).1.history = pNeg.history := by
  have hne : pNeg.rules ≠ [] := by simp [pNeg]
  obtain ⟨h1, h2⟩ := rule_bearing_calls_never_append pNeg rawA hne
  exact ⟨hne, h1, h2⟩

end Shipping

